import Mathlib

/-!
Verification of the icon generator (`scripts/generate-icons.py`).

The Python source is shallowly embedded below.  Byte-level code
(PNG chunk framing, CRC-32, the ICO container) is modelled over `ℕ` and
`ℤ` lists; the rasterizer's floating-point geometry is modelled over `ℝ`
with `Real.sqrt`, Python `int()` truncation becoming `pyInt`.
-/

namespace IconGen

/-- An RGBA pixel as produced by `draw_icon`: four integer channels. -/
abbrev Pixel := ℤ × ℤ × ℤ × ℤ

/-- Python `int()` on a float: truncation toward zero. -/
noncomputable def pyInt (x : ℝ) : ℤ := if 0 ≤ x then ⌊x⌋ else ⌈x⌉

/-! ### CRC-32 (zlib)

`make_png` calls `zlib.crc32`, which is not part of the repository.
Modelled from the spec: the standard PNG/zlib CRC-32 (reflected
polynomial `0xEDB88320`, initial value `0xFFFFFFFF`, final xor). -/

/-- One bit-step of the reflected CRC-32. -/
def crc32Round (c : ℕ) : ℕ := if c % 2 = 1 then (c / 2) ^^^ 0xEDB88320 else c / 2

/-- Fold one byte into the CRC state. -/
def crc32Byte (crc b : ℕ) : ℕ := crc32Round^[8] (crc ^^^ b)

/-- Modelled from the spec: `zlib.crc32` over a byte list (standard
PNG/zlib CRC-32 polynomial). -/
def crc32 (bs : List ℕ) : ℕ := (bs.foldl crc32Byte 0xFFFFFFFF) ^^^ 0xFFFFFFFF

/-! ### PNG encoder (`make_png`) -/

/-- `struct.pack('>I', n)`: 4 big-endian bytes. -/
def be32 (n : ℕ) : List ℕ := [n / 2 ^ 24 % 256, n / 2 ^ 16 % 256, n / 2 ^ 8 % 256, n % 256]

/-- The fixed 8-byte PNG signature `b'\x89PNG\r\n\x1a\n'`. -/
def pngSig : List ℕ := [137, 80, 78, 71, 13, 10, 26, 10]

/-- ASCII bytes of the chunk type `IHDR`. -/
def ihdrType : List ℕ := [73, 72, 68, 82]

/-- ASCII bytes of the chunk type `IDAT`. -/
def idatType : List ℕ := [73, 68, 65, 84]

/-- ASCII bytes of the chunk type `IEND`. -/
def iendType : List ℕ := [73, 69, 78, 68]

/-- `struct.pack('>IIBBBBB', width, height, 8, 6, 0, 0, 0)`: the IHDR data. -/
def ihdrData (w h : ℕ) : List ℕ := be32 w ++ be32 h ++ [8, 6, 0, 0, 0]

/-- The inner `chunk` helper of `make_png`: length, type+data, CRC over
type+data. -/
def chunk (t data : List ℕ) : List ℕ :=
  be32 data.length ++ (t ++ data) ++ be32 (crc32 (t ++ data))

/-- `struct.pack('BBBB', r, g, b, a)` for one channel: fails unless the
value fits in an unsigned byte. -/
def packB (v : ℤ) : Option ℕ := if 0 ≤ v ∧ v < 256 then some v.toNat else none

/-- Pack one RGBA pixel into four bytes. -/
def packPixel (p : Pixel) : Option (List ℕ) := do
  let r ← packB p.1
  let g ← packB p.2.1
  let b ← packB p.2.2.1
  let a ← packB p.2.2.2
  pure [r, g, b, a]

/-- Sequentially map a fallible function over a list, aborting on the
first failure (the behaviour of the Python loop raising). -/
def optMap {α β : Type} (f : α → Option β) : List α → Option (List β)
  | [] => some []
  | a :: t => do
    let b ← f a
    let bs ← optMap f t
    pure (b :: bs)

/-- One scanline of the raw buffer: the filter byte `0` followed by the
packed pixels `pixels[y*width + x]` for `x < width`. -/
def rowBytes (w : ℕ) (pixels : List Pixel) (y : ℕ) : Option (List ℕ) :=
  (optMap (fun x => (pixels[y * w + x]?).bind packPixel) (List.range w)).map
    fun l => 0 :: l.flatten

/-- The raw scanline buffer `raw` built by `make_png`. -/
def rawData (w h : ℕ) (pixels : List Pixel) : Option (List ℕ) :=
  (optMap (rowBytes w pixels) (List.range h)).map List.flatten

/-- `make_png(width, height, pixels)`.  `zlib.compress` is an external
library call, abstracted as the `compress` argument; pixel packing can
fail (Python raises on out-of-range channels), hence `Option`. -/
def make_png (w h : ℕ) (pixels : List Pixel) (compress : List ℕ → List ℕ) :
    Option (List ℕ) :=
  (rawData w h pixels).map fun raw =>
    pngSig ++ chunk ihdrType (ihdrData w h) ++ chunk idatType (compress raw) ++
      chunk iendType []

/-! ### ICO container (from `main`) -/

/-- `struct.pack('<H', n)`: 2 little-endian bytes. -/
def le16 (n : ℕ) : List ℕ := [n % 256, n / 256 % 256]

/-- `struct.pack('<I', n)`: 4 little-endian bytes. -/
def le32 (n : ℕ) : List ℕ := [n % 256, n / 2 ^ 8 % 256, n / 2 ^ 16 % 256, n / 2 ^ 24 % 256]

/-- `struct.pack('<HHH', 0, 1, 1)`: the 6-byte ICO header. -/
def icoHeader : List ℕ := le16 0 ++ le16 1 ++ le16 1

/-- `struct.pack('<BBBBHHII', 32, 32, 0, 0, 1, 32, pngLen, 22)`: the
16-byte ICO directory entry. -/
def icoEntry (pngLen : ℕ) : List ℕ :=
  [32, 32, 0, 0] ++ le16 1 ++ le16 32 ++ le32 pngLen ++ le32 22

/-- The favicon byte stream written by `main`: header, directory entry,
then the embedded PNG verbatim. -/
def favicon_bytes (png : List ℕ) : List ℕ := icoHeader ++ icoEntry png.length ++ png

/-! ### Coverage primitives (`aa_circle`, `aa_rounded_rect`) -/

/-- The shared anti-aliasing falloff: coverage as a function of the
distance `d` to the relevant boundary of radius `r`. -/
noncomputable def aaFalloff (d r : ℝ) : ℝ :=
  if d < r - 0.7 then 1
  else if d > r + 0.7 then 0
  else max 0 (min 1 ((r + 0.7 - d) / 1.4))

/-- `aa_circle(x, y, cx, cy, r)`: anti-aliased circle coverage. -/
noncomputable def aa_circle (x y cx cy r : ℝ) : ℝ :=
  if Real.sqrt ((x - cx) ^ 2 + (y - cy) ^ 2) < r - 0.7 then 1
  else if Real.sqrt ((x - cx) ^ 2 + (y - cy) ^ 2) > r + 0.7 then 0
  else max 0 (min 1 ((r + 0.7 - Real.sqrt ((x - cx) ^ 2 + (y - cy) ^ 2)) / 1.4))

/-- The corner-quadrant test of `aa_rounded_rect` for the corner centred
at `(cx, cy)`: `in_cx and in_cy` in the source. -/
def inQuad (x y size c cx cy : ℝ) : Prop :=
  ((x < c ∧ cx < size / 2) ∨ (size - c ≤ x ∧ size / 2 < cx)) ∧
    ((y < c ∧ cy < size / 2) ∨ (size - c ≤ y ∧ size / 2 < cy))

noncomputable instance (x y size c cx cy : ℝ) : Decidable (inQuad x y size c cx cy) := by
  unfold inQuad; infer_instance

/-- The `for cx, cy in corners` loop body of `aa_rounded_rect`; falls
through to the next corner when the quadrant test fails or the pixel is
deep inside the corner arc. -/
noncomputable def rrLoop (x y size c : ℝ) : List (ℝ × ℝ) → ℝ
  | [] => 1
  | (cx, cy) :: rest =>
    if inQuad x y size c cx cy then
      if Real.sqrt ((x - cx) ^ 2 + (y - cy) ^ 2) > c + 0.7 then 0
      else if Real.sqrt ((x - cx) ^ 2 + (y - cy) ^ 2) > c - 0.7 then
        max 0 (min 1 ((c + 0.7 - Real.sqrt ((x - cx) ^ 2 + (y - cy) ^ 2)) / 1.4))
      else rrLoop x y size c rest
    else rrLoop x y size c rest

/-- The list `corners` of `aa_rounded_rect`. -/
def cornersList (size c : ℝ) : List (ℝ × ℝ) :=
  [(c, c), (size - c, c), (c, size - c), (size - c, size - c)]

/-- `aa_rounded_rect(x, y, size, corner_r)`: anti-aliased rounded
rectangle coverage. -/
noncomputable def aa_rounded_rect (x y size c : ℝ) : ℝ :=
  rrLoop x y size c (cornersList size c)

/-! ### Glyph region test (`is_in_b`) -/

/-- `is_in_b(nx, ny)`: is the normalized coordinate inside the `B` glyph. -/
noncomputable def is_in_b (nx ny : ℝ) : Bool :=
  let stem := 0.32 ≤ nx ∧ nx ≤ 0.44 ∧ 0.20 ≤ ny ∧ ny ≤ 0.80
  let top_bar := 0.44 ≤ nx ∧ nx ≤ 0.58 ∧ 0.20 ≤ ny ∧ ny ≤ 0.30
  let mid_bar := 0.44 ≤ nx ∧ nx ≤ 0.60 ∧ 0.46 ≤ ny ∧ ny ≤ 0.54
  let bot_bar := 0.44 ≤ nx ∧ nx ≤ 0.58 ∧ 0.70 ≤ ny ∧ ny ≤ 0.80
  let top_bump :=
    ((nx - 0.55) / 0.14) ^ 2 + ((ny - 0.375) / 0.135) ^ 2 ≤ 1.0 ∧ nx ≥ 0.44
  let bot_bump :=
    ((nx - 0.57) / 0.15) ^ 2 + ((ny - 0.625) / 0.135) ^ 2 ≤ 1.0 ∧ nx ≥ 0.44
  let filled := stem ∨ top_bar ∨ mid_bar ∨ bot_bar ∨ top_bump ∨ bot_bump
  if ¬filled then false
  else if ((nx - 0.49) / 0.065) ^ 2 + ((ny - 0.375) / 0.065) ^ 2 ≤ 1.0 then false
  else if ((nx - 0.51) / 0.070) ^ 2 + ((ny - 0.625) / 0.065) ^ 2 ≤ 1.0 then false
  else true

/-! ### Rasterizer (`draw_icon`) -/

/-- The brand colour `#10b981`. -/
def BG_R : ℤ := 0x10

/-- Green channel of the brand colour. -/
def BG_G : ℤ := 0xB9

/-- Blue channel of the brand colour. -/
def BG_B : ℤ := 0x81

/-- The body of the per-pixel loop of `draw_icon`. -/
noncomputable def iconPixel (size x y : ℕ) : Pixel :=
  let center : ℝ := (size : ℝ) / 2
  let corner_r : ℝ := (size : ℝ) * 0.18
  let coin_r : ℝ := (size : ℝ) * 0.35
  let ra := aa_rounded_rect (x : ℝ) (y : ℝ) (size : ℝ) corner_r
  if ra ≤ 0 then (0, 0, 0, 0)
  else
    let alpha := pyInt (ra * 255)
    let ca := aa_circle (x : ℝ) (y : ℝ) center center coin_r
    if ca ≥ 1.0 then
      let nx := 0.5 + ((x : ℝ) - center) / (coin_r * 2)
      let ny := 0.5 + ((y : ℝ) - center) / (coin_r * 2)
      if is_in_b nx ny then (BG_R, BG_G, BG_B, alpha)
      else (255, 255, 255, alpha)
    else if ca > 0 then
      (pyInt ((BG_R : ℝ) * (1 - ca) + 255 * ca),
       pyInt ((BG_G : ℝ) * (1 - ca) + 255 * ca),
       pyInt ((BG_B : ℝ) * (1 - ca) + 255 * ca), alpha)
    else (BG_R, BG_G, BG_B, alpha)

/-- `draw_icon(size)`: the row-major canvas, `y` outer loop, `x` inner. -/
noncomputable def draw_icon (size : ℕ) : List Pixel :=
  (List.range size).flatMap fun y => (List.range size).map fun x => iconPixel size x y

/-! ### Spec-side definitions -/

/-- Spec-side glyph-region predicate, written from the behavioural table:
the filled union (stem, three bars, two bowls restricted to `nx ≥ 0.44`)
minus the two hole ellipses. -/
def specGlyph (nx ny : ℝ) : Prop :=
  ((0.32 ≤ nx ∧ nx ≤ 0.44 ∧ 0.20 ≤ ny ∧ ny ≤ 0.80) ∨
   (0.44 ≤ nx ∧ nx ≤ 0.58 ∧ 0.20 ≤ ny ∧ ny ≤ 0.30) ∨
   (0.44 ≤ nx ∧ nx ≤ 0.60 ∧ 0.46 ≤ ny ∧ ny ≤ 0.54) ∨
   (0.44 ≤ nx ∧ nx ≤ 0.58 ∧ 0.70 ≤ ny ∧ ny ≤ 0.80) ∨
   (((nx - 0.55) / 0.14) ^ 2 + ((ny - 0.375) / 0.135) ^ 2 ≤ 1.0 ∧ 0.44 ≤ nx) ∨
   (((nx - 0.57) / 0.15) ^ 2 + ((ny - 0.625) / 0.135) ^ 2 ≤ 1.0 ∧ 0.44 ≤ nx)) ∧
  ¬(((nx - 0.49) / 0.065) ^ 2 + ((ny - 0.375) / 0.065) ^ 2 ≤ 1.0) ∧
  ¬(((nx - 0.51) / 0.070) ^ 2 + ((ny - 0.625) / 0.065) ^ 2 ≤ 1.0)

/-- Spec-side corner-quadrant predicate, written from the claim's words:
the pixel is nearer to the corner's centre than to the rectangle's own
centre along both axes. -/
def specQuadrant (x y size cx cy : ℝ) : Prop :=
  |x - cx| < |x - size / 2| ∧ |y - cy| < |y - size / 2|

/-! ### Helper lemmas: the falloff function -/

theorem aaFalloff_nonneg (d r : ℝ) : 0 ≤ aaFalloff d r := by
  unfold aaFalloff
  split_ifs <;> simp [le_max_left]

theorem aaFalloff_le_one (d r : ℝ) : aaFalloff d r ≤ 1 := by
  unfold aaFalloff
  split_ifs with h1 h2
  · exact le_refl 1
  · norm_num
  · exact max_le (by norm_num) (min_le_left 1 _)

theorem aaFalloff_eq_one {d r : ℝ} (h : d ≤ r - 0.7) : aaFalloff d r = 1 := by
  unfold aaFalloff
  split_ifs with h1 h2
  · rfl
  · linarith
  · have hd : d = r - 0.7 := le_antisymm h (not_lt.1 h1)
    rw [hd]
    norm_num

theorem aaFalloff_eq_zero {d r : ℝ} (h : r + 0.7 ≤ d) : aaFalloff d r = 0 := by
  unfold aaFalloff
  split_ifs with h1 h2
  · linarith
  · rfl
  · have hd : d = r + 0.7 := le_antisymm (not_lt.1 h2) h
    rw [hd]
    norm_num

theorem aaFalloff_mid {d r : ℝ} (h1 : r - 0.7 ≤ d) (h2 : d ≤ r + 0.7) :
    aaFalloff d r = (r + 0.7 - d) / 1.4 := by
  unfold aaFalloff
  rw [if_neg (by linarith), if_neg (by linarith)]
  rw [min_eq_right (by rw [div_le_one (by norm_num)]; linarith),
    max_eq_right (div_nonneg (by linarith) (by norm_num))]

theorem aaFalloff_antitone (r : ℝ) {d₁ d₂ : ℝ} (h : d₁ ≤ d₂) :
    aaFalloff d₂ r ≤ aaFalloff d₁ r := by
  rcases le_or_lt d₁ (r - 0.7) with h1 | h1
  · rw [aaFalloff_eq_one h1]
    exact aaFalloff_le_one _ _
  · rcases le_or_lt (r + 0.7) d₂ with h2 | h2
    · rw [aaFalloff_eq_zero h2]
      exact aaFalloff_nonneg _ _
    · rw [aaFalloff_mid (le_of_lt h1) (by linarith), aaFalloff_mid (by linarith)
        (le_of_lt h2)]
      exact (div_le_div_iff_of_pos_right (by norm_num)).mpr (by linarith)

theorem aa_circle_falloff (x y cx cy r : ℝ) :
    aa_circle x y cx cy r = aaFalloff (Real.sqrt ((x - cx) ^ 2 + (y - cy) ^ 2)) r := rfl

/-! ### Helper lemmas: the rounded-rectangle corner loop -/

theorem rrLoop_of_none (x y size c : ℝ) (l : List (ℝ × ℝ))
    (h : ∀ p ∈ l, ¬ inQuad x y size c p.1 p.2) : rrLoop x y size c l = 1 := by
  induction l with
  | nil => rfl
  | cons p rest ih =>
    obtain ⟨cx, cy⟩ := p
    unfold rrLoop
    rw [if_neg (h (cx, cy) (List.mem_cons_self _ _))]
    exact ih fun q hq => h q (List.mem_cons_of_mem _ hq)

theorem rrLoop_of_match (x y size c cx cy : ℝ) (rest : List (ℝ × ℝ))
    (hq : inQuad x y size c cx cy)
    (hrest : ∀ p ∈ rest, ¬ inQuad x y size c p.1 p.2) :
    rrLoop x y size c ((cx, cy) :: rest) =
      aaFalloff (Real.sqrt ((x - cx) ^ 2 + (y - cy) ^ 2)) c := by
  unfold rrLoop
  rw [if_pos hq]
  set d := Real.sqrt ((x - cx) ^ 2 + (y - cy) ^ 2) with hd
  rcases le_or_lt d (c - 0.7) with h1 | h1
  · rw [if_neg (by intro hcon; linarith), if_neg (by intro hcon; linarith),
      rrLoop_of_none x y size c rest hrest, aaFalloff_eq_one h1]
  · rcases le_or_lt d (c + 0.7) with h2 | h2
    · rw [if_neg (by intro hcon; linarith), if_pos h1, aaFalloff_mid h1.le h2,
        min_eq_right (by rw [div_le_one (by norm_num)]; linarith),
        max_eq_right (div_nonneg (by linarith) (by norm_num))]
    · rw [if_pos h2, aaFalloff_eq_zero h2.le]

theorem rrLoop_bounds (x y size c : ℝ) (l : List (ℝ × ℝ)) :
    0 ≤ rrLoop x y size c l ∧ rrLoop x y size c l ≤ 1 := by
  induction l with
  | nil => exact ⟨zero_le_one, le_refl 1⟩
  | cons p rest ih =>
    obtain ⟨cx, cy⟩ := p
    unfold rrLoop
    split_ifs with hquad hfar hnear
    · exact ⟨le_refl 0, zero_le_one⟩
    · exact ⟨le_max_left 0 _, max_le zero_le_one (min_le_left 1 _)⟩
    · exact ih
    · exact ih

theorem aa_rounded_rect_nonneg (x y size c : ℝ) : 0 ≤ aa_rounded_rect x y size c :=
  (rrLoop_bounds x y size c _).1

theorem aa_rounded_rect_le_one (x y size c : ℝ) : aa_rounded_rect x y size c ≤ 1 :=
  (rrLoop_bounds x y size c _).2

/-- Off every corner quadrant, `aa_rounded_rect` returns full coverage. -/
theorem aa_rounded_rect_off (x y size c : ℝ)
    (h : ∀ p ∈ cornersList size c, ¬ inQuad x y size c p.1 p.2) :
    aa_rounded_rect x y size c = 1 :=
  rrLoop_of_none x y size c _ h

theorem rrLoop_skip (x y size c cx cy : ℝ) (rest : List (ℝ × ℝ))
    (h : ¬ inQuad x y size c cx cy) :
    rrLoop x y size c ((cx, cy) :: rest) = rrLoop x y size c rest := by
  unfold rrLoop
  rw [if_neg h]
  cases rest with
  | nil => rfl
  | cons p t =>
    obtain ⟨a, b⟩ := p
    rfl

/-- Inside the quadrant of one of the four corners, `aa_rounded_rect` is
the circular falloff against that corner's arc. -/
theorem aa_rounded_rect_quad {x y size c : ℝ} (hc : 0 < c) (hcs : 2 * c ≤ size)
    {cx cy : ℝ} (hmem : (cx, cy) ∈ cornersList size c)
    (hq : inQuad x y size c cx cy) :
    aa_rounded_rect x y size c =
      aaFalloff (Real.sqrt ((x - cx) ^ 2 + (y - cy) ^ 2)) c := by
  have hcle : c ≤ size / 2 := by linarith
  simp only [cornersList, List.mem_cons, List.not_mem_nil, or_false] at hmem
  unfold aa_rounded_rect cornersList
  rcases hmem with h | h | h | h <;>
    (injection h.symm with h1 h2; subst h1; subst h2)
  · -- corner (c, c)
    have hx : x < c := by
      rcases hq.1 with ⟨h1, _⟩ | ⟨_, h2⟩
      · exact h1
      · linarith
    have hy : y < c := by
      rcases hq.2 with ⟨h1, _⟩ | ⟨_, h2⟩
      · exact h1
      · linarith
    refine rrLoop_of_match x y size c c c _ hq ?_
    intro p hp
    simp only [List.mem_cons, List.not_mem_nil, or_false] at hp
    rcases hp with rfl | rfl | rfl <;>
      · rintro ⟨⟨h1, h2⟩ | ⟨h1, h2⟩, ⟨h3, h4⟩ | ⟨h3, h4⟩⟩ <;> linarith
  · -- corner (size - c, c)
    have hx : size - c ≤ x := by
      rcases hq.1 with ⟨_, h2⟩ | ⟨h1, _⟩
      · linarith
      · exact h1
    have hy : y < c := by
      rcases hq.2 with ⟨h1, _⟩ | ⟨_, h2⟩
      · exact h1
      · linarith
    rw [rrLoop_skip x y size c c c _
      (by rintro ⟨⟨h1, h2⟩ | ⟨h1, h2⟩, _⟩ <;> linarith)]
    refine rrLoop_of_match x y size c (size - c) c _ hq ?_
    intro p hp
    simp only [List.mem_cons, List.not_mem_nil, or_false] at hp
    rcases hp with rfl | rfl <;>
      · rintro ⟨⟨h1, h2⟩ | ⟨h1, h2⟩, ⟨h3, h4⟩ | ⟨h3, h4⟩⟩ <;> linarith
  · -- corner (c, size - c)
    have hx : x < c := by
      rcases hq.1 with ⟨h1, _⟩ | ⟨_, h2⟩
      · exact h1
      · linarith
    have hy : size - c ≤ y := by
      rcases hq.2 with ⟨_, h2⟩ | ⟨h1, _⟩
      · linarith
      · exact h1
    rw [rrLoop_skip x y size c c c _
      (by rintro ⟨_, ⟨h3, h4⟩ | ⟨h3, h4⟩⟩ <;> linarith),
      rrLoop_skip x y size c (size - c) c _
      (by rintro ⟨⟨h1, h2⟩ | ⟨h1, h2⟩, _⟩ <;> linarith)]
    refine rrLoop_of_match x y size c c (size - c) _ hq ?_
    intro p hp
    simp only [List.mem_cons, List.not_mem_nil, or_false] at hp
    rcases hp with rfl <;>
      · rintro ⟨⟨h1, h2⟩ | ⟨h1, h2⟩, ⟨h3, h4⟩ | ⟨h3, h4⟩⟩ <;> linarith
  · -- corner (size - c, size - c)
    have hx : size - c ≤ x := by
      rcases hq.1 with ⟨_, h2⟩ | ⟨h1, _⟩
      · linarith
      · exact h1
    have hy : size - c ≤ y := by
      rcases hq.2 with ⟨_, h2⟩ | ⟨h1, _⟩
      · linarith
      · exact h1
    rw [rrLoop_skip x y size c c c _
      (by rintro ⟨⟨h1, h2⟩ | ⟨h1, h2⟩, _⟩ <;> linarith),
      rrLoop_skip x y size c (size - c) c _
      (by rintro ⟨_, ⟨h3, h4⟩ | ⟨h3, h4⟩⟩ <;> linarith),
      rrLoop_skip x y size c c (size - c) _
      (by rintro ⟨⟨h1, h2⟩ | ⟨h1, h2⟩, _⟩ <;> linarith)]
    exact rrLoop_of_match x y size c (size - c) (size - c) _ hq fun p hp =>
      absurd hp (List.not_mem_nil p)

/-! ### Helper lemmas: lists, pixel access, encoder success -/

theorem flatMap_fixed_getElem {α β : Type} (g : α → List β) (w : ℕ)
    (hw : ∀ a, (g a).length = w) (l : List α) :
    ∀ (k x : ℕ), x < w → ∀ a, l[k]? = some a →
      (l.flatMap g)[k * w + x]? = (g a)[x]? := by
  induction l with
  | nil => intro k x _ a ha; simp at ha
  | cons b t ih =>
    intro k x hx a ha
    rw [List.flatMap_cons]
    cases k with
    | zero =>
      simp only [List.getElem?_cons_zero, Option.some.injEq] at ha
      subst ha
      rw [Nat.zero_mul, Nat.zero_add]
      exact List.getElem?_append_left (by rw [hw]; exact hx)
    | succ k =>
      simp only [List.getElem?_cons_succ] at ha
      have hidx : (k + 1) * w + x = (g b).length + (k * w + x) := by
        rw [hw]; ring
      rw [hidx, List.getElem?_append_right (Nat.le_add_right _ _),
        Nat.add_sub_cancel_left]
      exact ih k x hx a ha

/-- Pixel `(x, y)` of the canvas is the value of the per-pixel loop body. -/
theorem draw_icon_getElem (size x y : ℕ) (hx : x < size) (hy : y < size) :
    (draw_icon size)[y * size + x]? = some (iconPixel size x y) := by
  unfold draw_icon
  rw [flatMap_fixed_getElem _ size (fun j => by simp) (List.range size) y x hx y
    (List.getElem?_range hy)]
  rw [List.getElem?_map, List.getElem?_range hx]
  rfl

/-- All four channels fit in an unsigned byte. -/
def validPixel (p : Pixel) : Prop :=
  (0 ≤ p.1 ∧ p.1 < 256) ∧ (0 ≤ p.2.1 ∧ p.2.1 < 256) ∧
    (0 ≤ p.2.2.1 ∧ p.2.2.1 < 256) ∧ (0 ≤ p.2.2.2 ∧ p.2.2.2 < 256)

theorem packPixel_isSome {p : Pixel} (h : validPixel p) : (packPixel p).isSome := by
  obtain ⟨h1, h2, h3, h4⟩ := h
  simp [packPixel, packB, h1, h2, h3, h4]

theorem isSome_map {α β : Type} (f : α → β) (o : Option α) :
    (o.map f).isSome = o.isSome := by
  cases o <;> rfl

theorem optMap_isSome {α β : Type} (f : α → Option β) (l : List α)
    (h : ∀ a ∈ l, (f a).isSome) : (optMap f l).isSome := by
  induction l with
  | nil => rfl
  | cons a t ih =>
    unfold optMap
    obtain ⟨b, hb⟩ := Option.isSome_iff_exists.1 (h a (List.mem_cons_self _ _))
    obtain ⟨bs, hbs⟩ := Option.isSome_iff_exists.1
      (ih fun q hq => h q (List.mem_cons_of_mem _ hq))
    simp [hb, hbs]

/-- The raw scanline buffer is built successfully whenever every accessed
pixel exists and has byte-range channels. -/
theorem rawData_isSome (w h : ℕ) (pixels : List Pixel)
    (hpx : ∀ y < h, ∀ x < w, ∃ p, pixels[y * w + x]? = some p ∧ validPixel p) :
    (rawData w h pixels).isSome := by
  unfold rawData
  rw [isSome_map]
  apply optMap_isSome
  intro y hy
  rw [List.mem_range] at hy
  unfold rowBytes
  rw [isSome_map]
  apply optMap_isSome
  intro x hx
  rw [List.mem_range] at hx
  obtain ⟨p, hp, hvp⟩ := hpx y hy x hx
  rw [hp, Option.some_bind]
  exact packPixel_isSome hvp

theorem make_png_isSome (w h : ℕ) (pixels : List Pixel)
    (compress : List ℕ → List ℕ)
    (hpx : ∀ y < h, ∀ x < w, ∃ p, pixels[y * w + x]? = some p ∧ validPixel p) :
    (make_png w h pixels compress).isSome := by
  unfold make_png
  rw [isSome_map]
  exact rawData_isSome w h pixels hpx

/-! ### Claim theorems -/

/-- C3: `is_in_b(nx, ny)` returns true iff the point lies in the union of
the stem rectangle, the three bars, and the two bowl ellipses (each
restricted to `nx ≥ 0.44`), and lies in neither hole ellipse, with the
exact constants of the behavioural table. -/
theorem is_in_b_iff_specGlyph (nx ny : ℝ) :
    is_in_b nx ny = true ↔ specGlyph nx ny := by
  unfold is_in_b specGlyph
  simp only [ge_iff_le]
  by_cases hu : (0.32 ≤ nx ∧ nx ≤ 0.44 ∧ 0.20 ≤ ny ∧ ny ≤ 0.80 ∨
      0.44 ≤ nx ∧ nx ≤ 0.58 ∧ 0.20 ≤ ny ∧ ny ≤ 0.30 ∨
        0.44 ≤ nx ∧ nx ≤ 0.60 ∧ 0.46 ≤ ny ∧ ny ≤ 0.54 ∨
          0.44 ≤ nx ∧ nx ≤ 0.58 ∧ 0.70 ≤ ny ∧ ny ≤ 0.80 ∨
            ((nx - 0.55) / 0.14) ^ 2 + ((ny - 0.375) / 0.135) ^ 2 ≤ 1.0 ∧ 0.44 ≤ nx ∨
              ((nx - 0.57) / 0.15) ^ 2 + ((ny - 0.625) / 0.135) ^ 2 ≤ 1.0 ∧ 0.44 ≤ nx)
  · rw [if_neg (not_not_intro hu)]
    by_cases h1 : ((nx - 0.49) / 0.065) ^ 2 + ((ny - 0.375) / 0.065) ^ 2 ≤ 1.0
    · rw [if_pos h1]
      simp [h1]
    · rw [if_neg h1]
      by_cases h2 : ((nx - 0.51) / 0.070) ^ 2 + ((ny - 0.625) / 0.065) ^ 2 ≤ 1.0
      · rw [if_pos h2]
        simp [h2]
      · rw [if_neg h2]
        simp [hu, h1, h2]
  · rw [if_pos hu]
    simp [hu]

/-- C7: the favicon byte stream is the 6-byte ICO header (reserved 0,
type 1, count 1), one 16-byte directory entry (width 32, height 32, two
zero bytes, 16-bit fields 1 and 32, image size, offset 22), then the
embedded PNG verbatim; total length 6 + 16 + len(png). -/
theorem favicon_layout (png : List ℕ) :
    favicon_bytes png =
      [0, 0, 1, 0, 1, 0] ++
        ([32, 32, 0, 0] ++ [1, 0] ++ [32, 0] ++ le32 png.length ++ [22, 0, 0, 0]) ++
        png ∧
    (favicon_bytes png).length = 6 + 16 + png.length := by
  constructor
  · simp [favicon_bytes, icoHeader, icoEntry, le16, le32]
  · simp [favicon_bytes, icoHeader, icoEntry, le16, le32]
    omega

/-- C6: the coverage returned by `aa_circle` and `aa_rounded_rect` is the
falloff of the distance to the relevant boundary (the circle for
`aa_circle`; the corner arc inside a corner quadrant and full coverage
elsewhere for `aa_rounded_rect`), and that falloff is in `[0, 1]`,
non-increasing in the distance, exactly 1 at distance `≤ r - 0.7`,
exactly 0 at distance `≥ r + 0.7`, and linear in between. -/
theorem coverage_falloff_properties (x y cx cy r d d₁ d₂ size c : ℝ)
    (hd : d₁ ≤ d₂) (hc : 0 < c) (hcs : c < size / 2) :
    (0 ≤ aaFalloff d r ∧ aaFalloff d r ≤ 1) ∧
    aaFalloff d₂ r ≤ aaFalloff d₁ r ∧
    (d ≤ r - 0.7 → aaFalloff d r = 1) ∧
    (r + 0.7 ≤ d → aaFalloff d r = 0) ∧
    (r - 0.7 ≤ d → d ≤ r + 0.7 → aaFalloff d r = (r + 0.7 - d) / 1.4) ∧
    aa_circle x y cx cy r = aaFalloff (Real.sqrt ((x - cx) ^ 2 + (y - cy) ^ 2)) r ∧
    (∀ ccx ccy, (ccx, ccy) ∈ cornersList size c → inQuad x y size c ccx ccy →
      aa_rounded_rect x y size c =
        aaFalloff (Real.sqrt ((x - ccx) ^ 2 + (y - ccy) ^ 2)) c) ∧
    ((∀ p ∈ cornersList size c, ¬ inQuad x y size c p.1 p.2) →
      aa_rounded_rect x y size c = 1) := by
  refine ⟨⟨aaFalloff_nonneg d r, aaFalloff_le_one d r⟩, aaFalloff_antitone r hd,
    fun h => aaFalloff_eq_one h, fun h => aaFalloff_eq_zero h,
    fun h1 h2 => aaFalloff_mid h1 h2, aa_circle_falloff x y cx cy r,
    fun ccx ccy hmem hq => aa_rounded_rect_quad hc (by linarith) hmem hq,
    fun h => aa_rounded_rect_off x y size c h⟩

/-- Witness for C6 at concrete inputs. -/
theorem coverage_falloff_properties_witness :
    (0 : ℝ) ≤ 1 ∧ (0 : ℝ) < 2 ∧ (2 : ℝ) < 10 / 2 ∧
    ((0 ≤ aaFalloff 0 1 ∧ aaFalloff 0 1 ≤ 1) ∧
     aaFalloff 1 1 ≤ aaFalloff 0 1 ∧
     ((0 : ℝ) ≤ 1 - 0.7 → aaFalloff 0 1 = 1) ∧
     ((1 : ℝ) + 0.7 ≤ 0 → aaFalloff 0 1 = 0) ∧
     ((1 : ℝ) - 0.7 ≤ 0 → (0 : ℝ) ≤ 1 + 0.7 → aaFalloff 0 1 = (1 + 0.7 - 0) / 1.4) ∧
     aa_circle 5 6 7 8 1 = aaFalloff (Real.sqrt ((5 - 7) ^ 2 + (6 - 8) ^ 2)) 1 ∧
     (∀ ccx ccy, (ccx, ccy) ∈ cornersList 10 2 → inQuad 5 6 10 2 ccx ccy →
       aa_rounded_rect 5 6 10 2 =
         aaFalloff (Real.sqrt (((5 : ℝ) - ccx) ^ 2 + ((6 : ℝ) - ccy) ^ 2)) 2) ∧
     ((∀ p ∈ cornersList 10 2, ¬ inQuad 5 6 10 2 p.1 p.2) →
       aa_rounded_rect 5 6 10 2 = 1)) :=
  ⟨by norm_num, by norm_num, by norm_num,
    coverage_falloff_properties 5 6 7 8 1 0 0 1 10 2 (by norm_num) (by norm_num)
      (by norm_num)⟩

/-- C2 counterexample: with size 10 and corner_radius 2 (so
`0 < corner_radius < size/2`), the pixel (3,3) is nearer to the corner
centre (2,2) than to the rectangle centre along both axes, yet
`aa_rounded_rect` returns full coverage 1.0 instead of the circular
falloff against that corner's arc. -/
theorem quadrant_description_counterexample :
    (0 : ℝ) < 2 ∧ (2 : ℝ) < 10 / 2 ∧
    specQuadrant 3 3 10 2 2 ∧
    aa_rounded_rect 3 3 10 2 = 1 ∧
    aaFalloff (Real.sqrt (((3 : ℝ) - 2) ^ 2 + ((3 : ℝ) - 2) ^ 2)) 2 ≠ 1 := by
  have hsq : ((3 : ℝ) - 2) ^ 2 + ((3 : ℝ) - 2) ^ 2 = 2 := by norm_num
  have h13 : (1.3 : ℝ) < Real.sqrt 2 :=
    (Real.lt_sqrt (by norm_num)).mpr (by norm_num)
  have h27 : Real.sqrt 2 < 2.7 := (Real.sqrt_lt' (by norm_num)).mpr (by norm_num)
  refine ⟨by norm_num, by norm_num, ?_, ?_, ?_⟩
  · constructor
    · rw [show ((3 : ℝ) - 2) = 1 by norm_num, show ((3 : ℝ) - 10 / 2) = -2 by norm_num,
        abs_one, abs_neg]
      rw [show |(2 : ℝ)| = 2 by rw [abs_of_pos]; norm_num]
      norm_num
    · rw [show ((3 : ℝ) - 2) = 1 by norm_num, show ((3 : ℝ) - 10 / 2) = -2 by norm_num,
        abs_one, abs_neg]
      rw [show |(2 : ℝ)| = 2 by rw [abs_of_pos]; norm_num]
      norm_num
  · apply aa_rounded_rect_off
    intro p hp
    simp only [cornersList, List.mem_cons, List.not_mem_nil, or_false] at hp
    rcases hp with rfl | rfl | rfl | rfl <;>
      · rintro ⟨⟨h1, _⟩ | ⟨h1, _⟩, _⟩ <;> norm_num at h1
  · rw [hsq, aaFalloff_mid (by linarith) (by linarith)]
    intro heq
    have hs : Real.sqrt 2 ^ 2 = 2 := Real.sq_sqrt (by norm_num)
    have h2 : Real.sqrt 2 = 1.3 := by
      field_simp at heq
      linarith
    rw [h2] at hs
    norm_num at hs

/-- C2 amended: `aa_rounded_rect` applies the circular falloff against a
corner's arc exactly for pixels in that corner's code quadrant — within
`corner_radius` of the corner's two adjacent edges (`x < corner_r` for
left corners, `x ≥ size - corner_r` for right ones, and likewise for
`y`) — and returns exactly 1.0 for every other pixel; each corner centre
is inset by `corner_radius` from its two edges. -/
theorem aa_rounded_rect_code_quadrants (x y size c : ℝ) (hc : 0 < c)
    (hcs : c < size / 2) :
    (∀ ccx ccy, (ccx, ccy) ∈ cornersList size c → inQuad x y size c ccx ccy →
      aa_rounded_rect x y size c =
        aaFalloff (Real.sqrt ((x - ccx) ^ 2 + (y - ccy) ^ 2)) c) ∧
    ((∀ p ∈ cornersList size c, ¬ inQuad x y size c p.1 p.2) →
      aa_rounded_rect x y size c = 1) :=
  ⟨fun ccx ccy hmem hq => aa_rounded_rect_quad hc (by linarith) hmem hq,
    fun h => aa_rounded_rect_off x y size c h⟩

/-- Witness for the amended C2 at concrete inputs. -/
theorem aa_rounded_rect_code_quadrants_witness :
    (0 : ℝ) < 2 ∧ (2 : ℝ) < 10 / 2 ∧
    ((∀ ccx ccy, (ccx, ccy) ∈ cornersList 10 2 → inQuad 1 1 10 2 ccx ccy →
      aa_rounded_rect 1 1 10 2 =
        aaFalloff (Real.sqrt (((1 : ℝ) - ccx) ^ 2 + ((1 : ℝ) - ccy) ^ 2)) 2) ∧
    ((∀ p ∈ cornersList 10 2, ¬ inQuad 1 1 10 2 p.1 p.2) →
      aa_rounded_rect 1 1 10 2 = 1)) :=
  ⟨by norm_num, by norm_num,
    aa_rounded_rect_code_quadrants 1 1 10 2 (by norm_num) (by norm_num)⟩

/-- Coverage `≥ 1` forces the distance to be within the inner edge of the
falloff band. -/
theorem aa_circle_ge_one {x y cx cy r : ℝ} (h : 1 ≤ aa_circle x y cx cy r) :
    Real.sqrt ((x - cx) ^ 2 + (y - cy) ^ 2) ≤ r - 0.7 := by
  rw [aa_circle_falloff] at h
  by_contra hcon
  push_neg at hcon
  rcases le_or_lt (Real.sqrt ((x - cx) ^ 2 + (y - cy) ^ 2)) (r + 0.7) with h2 | h2
  · rw [aaFalloff_mid hcon.le h2] at h
    rw [le_div_iff (by norm_num)] at h
    linarith
  · rw [aaFalloff_eq_zero h2.le] at h
    linarith

/-- A pixel at distance beyond the falloff band of the first corner gets
zero coverage. -/
theorem aa_rounded_rect_corner_zero (s c : ℝ) (hc : 0 < c) (hc2 : c < s / 2)
    (hfar : (c + 0.7) ^ 2 < 2 * c ^ 2) :
    aa_rounded_rect 0 0 s c = 0 := by
  unfold aa_rounded_rect cornersList
  have hq : inQuad 0 0 s c c c := ⟨Or.inl ⟨hc, hc2⟩, Or.inl ⟨hc, hc2⟩⟩
  unfold rrLoop
  rw [if_pos hq, show ((0 : ℝ) - c) ^ 2 + ((0 : ℝ) - c) ^ 2 = 2 * c ^ 2 by ring,
    if_pos ((Real.lt_sqrt (by positivity)).mpr hfar)]

/-- A pixel whose rounded-rect coverage is non-positive is emitted fully
transparent. -/
theorem iconPixel_transparent {s x y : ℕ}
    (h : aa_rounded_rect (x : ℝ) (y : ℝ) (s : ℝ) ((s : ℝ) * 0.18) ≤ 0) :
    iconPixel s x y = (0, 0, 0, 0) := by
  simp only [iconPixel]
  rw [if_pos h]

/-- C8: for each generated size (512, 192, 180, 32), the corner pixel
(0,0) has non-positive rounded-rect coverage, so `draw_icon` emits the
fully transparent pixel (0,0,0,0) there. -/
theorem generated_corner_pixels_transparent :
    (aa_rounded_rect 0 0 512 (512 * 0.18) ≤ 0 ∧
      (draw_icon 512)[0]? = some (0, 0, 0, 0)) ∧
    (aa_rounded_rect 0 0 192 (192 * 0.18) ≤ 0 ∧
      (draw_icon 192)[0]? = some (0, 0, 0, 0)) ∧
    (aa_rounded_rect 0 0 180 (180 * 0.18) ≤ 0 ∧
      (draw_icon 180)[0]? = some (0, 0, 0, 0)) ∧
    (aa_rounded_rect 0 0 32 (32 * 0.18) ≤ 0 ∧
      (draw_icon 32)[0]? = some (0, 0, 0, 0)) := by
  have k512 : aa_rounded_rect 0 0 512 ((512 : ℝ) * 0.18) = 0 := by
    rw [show (512 : ℝ) * 0.18 = 92.16 by norm_num]
    exact aa_rounded_rect_corner_zero 512 92.16 (by norm_num) (by norm_num) (by norm_num)
  have k192 : aa_rounded_rect 0 0 192 ((192 : ℝ) * 0.18) = 0 := by
    rw [show (192 : ℝ) * 0.18 = 34.56 by norm_num]
    exact aa_rounded_rect_corner_zero 192 34.56 (by norm_num) (by norm_num) (by norm_num)
  have k180 : aa_rounded_rect 0 0 180 ((180 : ℝ) * 0.18) = 0 := by
    rw [show (180 : ℝ) * 0.18 = 32.4 by norm_num]
    exact aa_rounded_rect_corner_zero 180 32.4 (by norm_num) (by norm_num) (by norm_num)
  have k32 : aa_rounded_rect 0 0 32 ((32 : ℝ) * 0.18) = 0 := by
    rw [show (32 : ℝ) * 0.18 = 5.76 by norm_num]
    exact aa_rounded_rect_corner_zero 32 5.76 (by norm_num) (by norm_num) (by norm_num)
  refine ⟨⟨k512.le, ?_⟩, ⟨k192.le, ?_⟩, ⟨k180.le, ?_⟩, ⟨k32.le, ?_⟩⟩ <;>
    [ (have hg := draw_icon_getElem 512 0 0 (by norm_num) (by norm_num);
       rw [show 0 * 512 + 0 = 0 by norm_num] at hg;
       rw [hg, iconPixel_transparent (by push_cast; exact k512.le)]);
      (have hg := draw_icon_getElem 192 0 0 (by norm_num) (by norm_num);
       rw [show 0 * 192 + 0 = 0 by norm_num] at hg;
       rw [hg, iconPixel_transparent (by push_cast; exact k192.le)]);
      (have hg := draw_icon_getElem 180 0 0 (by norm_num) (by norm_num);
       rw [show 0 * 180 + 0 = 0 by norm_num] at hg;
       rw [hg, iconPixel_transparent (by push_cast; exact k180.le)]);
      (have hg := draw_icon_getElem 32 0 0 (by norm_num) (by norm_num);
       rw [show 0 * 32 + 0 = 0 by norm_num] at hg;
       rw [hg, iconPixel_transparent (by push_cast; exact k32.le)])]

/-- C9: whenever the fully-inside-coin branch (`ca >= 1.0`) is taken in
`draw_icon`, the normalized coordinates passed to `is_in_b` lie strictly
inside (0,1) on both axes. -/
theorem glyph_coords_in_unit_square (size x y : ℕ) (hs : 0 < size)
    (hca : aa_circle (x : ℝ) (y : ℝ) ((size : ℝ) / 2) ((size : ℝ) / 2)
      ((size : ℝ) * 0.35) ≥ 1.0) :
    0 < 0.5 + ((x : ℝ) - (size : ℝ) / 2) / ((size : ℝ) * 0.35 * 2) ∧
    0.5 + ((x : ℝ) - (size : ℝ) / 2) / ((size : ℝ) * 0.35 * 2) < 1 ∧
    0 < 0.5 + ((y : ℝ) - (size : ℝ) / 2) / ((size : ℝ) * 0.35 * 2) ∧
    0.5 + ((y : ℝ) - (size : ℝ) / 2) / ((size : ℝ) * 0.35 * 2) < 1 := by
  have hs1 : (1 : ℝ) ≤ (size : ℝ) := by exact_mod_cast hs
  have hr : (0 : ℝ) < (size : ℝ) * 0.35 := by nlinarith
  have h2r : (0 : ℝ) < (size : ℝ) * 0.35 * 2 := by linarith
  have hd := aa_circle_ge_one
    (le_trans (le_of_eq (show (1 : ℝ) = 1.0 by norm_num)) hca)
  have hxd : |(x : ℝ) - (size : ℝ) / 2| ≤ (size : ℝ) * 0.35 - 0.7 := by
    calc |(x : ℝ) - (size : ℝ) / 2|
        = Real.sqrt (((x : ℝ) - (size : ℝ) / 2) ^ 2) := (Real.sqrt_sq_eq_abs _).symm
      _ ≤ Real.sqrt (((x : ℝ) - (size : ℝ) / 2) ^ 2 + ((y : ℝ) - (size : ℝ) / 2) ^ 2) :=
          Real.sqrt_le_sqrt (le_add_of_nonneg_right (sq_nonneg _))
      _ ≤ (size : ℝ) * 0.35 - 0.7 := hd
  have hyd : |(y : ℝ) - (size : ℝ) / 2| ≤ (size : ℝ) * 0.35 - 0.7 := by
    calc |(y : ℝ) - (size : ℝ) / 2|
        = Real.sqrt (((y : ℝ) - (size : ℝ) / 2) ^ 2) := (Real.sqrt_sq_eq_abs _).symm
      _ ≤ Real.sqrt (((x : ℝ) - (size : ℝ) / 2) ^ 2 + ((y : ℝ) - (size : ℝ) / 2) ^ 2) :=
          Real.sqrt_le_sqrt (le_add_of_nonneg_left (sq_nonneg _))
      _ ≤ (size : ℝ) * 0.35 - 0.7 := hd
  have hx1 : (x : ℝ) - (size : ℝ) / 2 < (size : ℝ) * 0.35 :=
    lt_of_le_of_lt (le_trans (le_abs_self _) hxd) (by linarith)
  have hx2 : -((size : ℝ) * 0.35) < (x : ℝ) - (size : ℝ) / 2 := by
    have := le_trans (neg_le_abs _) hxd
    linarith [neg_abs_le ((x : ℝ) - (size : ℝ) / 2)]
  have hy1 : (y : ℝ) - (size : ℝ) / 2 < (size : ℝ) * 0.35 :=
    lt_of_le_of_lt (le_trans (le_abs_self _) hyd) (by linarith)
  have hy2 : -((size : ℝ) * 0.35) < (y : ℝ) - (size : ℝ) / 2 := by
    linarith [neg_abs_le ((y : ℝ) - (size : ℝ) / 2)]
  refine ⟨?_, ?_, ?_, ?_⟩
  · have : (-0.5 : ℝ) < ((x : ℝ) - (size : ℝ) / 2) / ((size : ℝ) * 0.35 * 2) :=
      (lt_div_iff h2r).mpr (by nlinarith)
    linarith
  · have : ((x : ℝ) - (size : ℝ) / 2) / ((size : ℝ) * 0.35 * 2) < 0.5 :=
      (div_lt_iff h2r).mpr (by nlinarith)
    linarith
  · have : (-0.5 : ℝ) < ((y : ℝ) - (size : ℝ) / 2) / ((size : ℝ) * 0.35 * 2) :=
      (lt_div_iff h2r).mpr (by nlinarith)
    linarith
  · have : ((y : ℝ) - (size : ℝ) / 2) / ((size : ℝ) * 0.35 * 2) < 0.5 :=
      (div_lt_iff h2r).mpr (by nlinarith)
    linarith

/-- Witness for C9 at the centre pixel of the 32×32 icon. -/
theorem glyph_coords_in_unit_square_witness :
    0 < 32 ∧
    aa_circle ((16 : ℕ) : ℝ) ((16 : ℕ) : ℝ) (((32 : ℕ) : ℝ) / 2) (((32 : ℕ) : ℝ) / 2)
      (((32 : ℕ) : ℝ) * 0.35) ≥ 1.0 ∧
    (0 < 0.5 + (((16 : ℕ) : ℝ) - ((32 : ℕ) : ℝ) / 2) / (((32 : ℕ) : ℝ) * 0.35 * 2) ∧
     0.5 + (((16 : ℕ) : ℝ) - ((32 : ℕ) : ℝ) / 2) / (((32 : ℕ) : ℝ) * 0.35 * 2) < 1 ∧
     0 < 0.5 + (((16 : ℕ) : ℝ) - ((32 : ℕ) : ℝ) / 2) / (((32 : ℕ) : ℝ) * 0.35 * 2) ∧
     0.5 + (((16 : ℕ) : ℝ) - ((32 : ℕ) : ℝ) / 2) / (((32 : ℕ) : ℝ) * 0.35 * 2) < 1) := by
  have hca : aa_circle ((16 : ℕ) : ℝ) ((16 : ℕ) : ℝ) (((32 : ℕ) : ℝ) / 2)
      (((32 : ℕ) : ℝ) / 2) (((32 : ℕ) : ℝ) * 0.35) ≥ 1.0 := by
    unfold aa_circle
    rw [if_pos]
    · norm_num
    · push_cast
      norm_num [Real.sqrt_zero]
  exact ⟨by norm_num, hca, glyph_coords_in_unit_square 32 16 16 (by norm_num) hca⟩

/-- The rounded-rect coverage at pixel (1,2) of the 32×32 icon: the pixel
falls in the top-left corner quadrant at distance `√36.7952` from the
corner centre (5.76, 5.76), inside the falloff band. -/
theorem aa_rounded_rect_32_1_2 :
    aa_rounded_rect 1 2 32 5.76 = (6.46 - Real.sqrt 36.7952) / 1.4 := by
  have hq : inQuad 1 2 32 5.76 5.76 5.76 :=
    ⟨Or.inl ⟨by norm_num, by norm_num⟩, Or.inl ⟨by norm_num, by norm_num⟩⟩
  have hub : Real.sqrt 36.7952 < 6.46 := (Real.sqrt_lt' (by norm_num)).mpr (by norm_num)
  have hlb : (5.06 : ℝ) < Real.sqrt 36.7952 := (Real.lt_sqrt (by norm_num)).mpr (by norm_num)
  unfold aa_rounded_rect cornersList rrLoop
  rw [if_pos hq, show ((1 : ℝ) - 5.76) ^ 2 + ((2 : ℝ) - 5.76) ^ 2 = 36.7952 by norm_num,
    if_neg (by intro hcon; linarith), if_pos (by show (5.76 : ℝ) - 0.7 < _; linarith),
    show (5.76 : ℝ) + 0.7 = 6.46 by norm_num,
    min_eq_right (by rw [div_le_one (by norm_num)]; linarith),
    max_eq_right (div_nonneg (by linarith) (by norm_num))]

/-- The alpha channel of a non-transparent pixel is `int(ra*255)`. -/
theorem iconPixel_alpha {s x y : ℕ}
    (h : ¬ aa_rounded_rect (x : ℝ) (y : ℝ) (s : ℝ) ((s : ℝ) * 0.18) ≤ 0) :
    (iconPixel s x y).2.2.2 =
      pyInt (aa_rounded_rect (x : ℝ) (y : ℝ) (s : ℝ) ((s : ℝ) * 0.18) * 255) := by
  simp only [iconPixel]
  rw [if_neg h]
  split_ifs <;> rfl

/-- C1 counterexample: at pixel (1,2) of `draw_icon(32)` the rounded-rect
coverage `ra` is strictly positive, yet the emitted alpha is
`⌊ra*255⌋ = 71` while `round(ra*255) = 72`. -/
theorem alpha_round_counterexample :
    (draw_icon 32)[2 * 32 + 1]? = some (iconPixel 32 1 2) ∧
    0 < aa_rounded_rect ((1 : ℕ) : ℝ) ((2 : ℕ) : ℝ) ((32 : ℕ) : ℝ)
      (((32 : ℕ) : ℝ) * 0.18) ∧
    (iconPixel 32 1 2).2.2.2 ≠
      round (aa_rounded_rect ((1 : ℕ) : ℝ) ((2 : ℕ) : ℝ) ((32 : ℕ) : ℝ)
        (((32 : ℕ) : ℝ) * 0.18) * 255) := by
  have hcast : aa_rounded_rect ((1 : ℕ) : ℝ) ((2 : ℕ) : ℝ) ((32 : ℕ) : ℝ)
      (((32 : ℕ) : ℝ) * 0.18) = aa_rounded_rect 1 2 32 5.76 := by
    norm_num
  have hub : Real.sqrt 36.7952 < 6.46 := (Real.sqrt_lt' (by norm_num)).mpr (by norm_num)
  have hl : (6.0648 : ℝ) < Real.sqrt 36.7952 :=
    (Real.lt_sqrt (by norm_num)).mpr (by norm_num)
  have hu : Real.sqrt 36.7952 < 6.0674 := (Real.sqrt_lt' (by norm_num)).mpr (by norm_num)
  have hval_lo : (71.5 : ℝ) < (6.46 - Real.sqrt 36.7952) / 1.4 * 255 := by
    rw [div_mul_eq_mul_div, lt_div_iff (by norm_num)]
    linarith
  have hval_hi : (6.46 - Real.sqrt 36.7952) / 1.4 * 255 < 72 := by
    rw [div_mul_eq_mul_div, div_lt_iff (by norm_num)]
    linarith
  have hpos : (0 : ℝ) < (6.46 - Real.sqrt 36.7952) / 1.4 := by
    apply div_pos (by linarith) (by norm_num)
  refine ⟨draw_icon_getElem 32 1 2 (by norm_num) (by norm_num), ?_, ?_⟩
  · rw [hcast, aa_rounded_rect_32_1_2]
    exact hpos
  · rw [hcast, aa_rounded_rect_32_1_2,
      iconPixel_alpha (by rw [hcast, aa_rounded_rect_32_1_2]; exact not_le.mpr hpos),
      hcast, aa_rounded_rect_32_1_2]
    unfold pyInt
    rw [if_pos (by positivity)]
    have hfl : ⌊(6.46 - Real.sqrt 36.7952) / 1.4 * 255⌋ = 71 := by
      rw [Int.floor_eq_iff]
      constructor
      · push_cast
        linarith
      · push_cast
        linarith
    have hrd : round ((6.46 - Real.sqrt 36.7952) / 1.4 * 255) = 72 := by
      rw [round_eq, Int.floor_eq_iff]
      constructor
      · push_cast
        linarith
      · push_cast
        linarith
    rw [hfl, hrd]
    norm_num

/-- C1 amended: for every pixel whose rounded-rect coverage `ra` is
strictly positive, the emitted alpha equals `int(ra*255)`, i.e. `ra*255`
truncated downwards (`⌊ra*255⌋`), not rounded to the nearest integer. -/
theorem alpha_is_floor (s x y : ℕ)
    (h : 0 < aa_rounded_rect (x : ℝ) (y : ℝ) (s : ℝ) ((s : ℝ) * 0.18)) :
    (iconPixel s x y).2.2.2 =
      ⌊aa_rounded_rect (x : ℝ) (y : ℝ) (s : ℝ) ((s : ℝ) * 0.18) * 255⌋ := by
  rw [iconPixel_alpha (not_le.mpr h)]
  unfold pyInt
  rw [if_pos (mul_nonneg h.le (by norm_num))]

/-- Full coverage at the centre pixel of the 32×32 icon. -/
theorem aa_rounded_rect_32_center : aa_rounded_rect 16 16 32 5.76 = 1 := by
  apply aa_rounded_rect_off
  intro p hp
  simp only [cornersList, List.mem_cons, List.not_mem_nil, or_false] at hp
  rcases hp with rfl | rfl | rfl | rfl <;>
    · rintro ⟨⟨h1, -⟩ | ⟨h1, -⟩, -⟩ <;> norm_num at h1

/-- Witness for the amended C1 at the centre pixel of the 32×32 icon. -/
theorem alpha_is_floor_witness :
    0 < aa_rounded_rect ((16 : ℕ) : ℝ) ((16 : ℕ) : ℝ) ((32 : ℕ) : ℝ)
      (((32 : ℕ) : ℝ) * 0.18) ∧
    (iconPixel 32 16 16).2.2.2 =
      ⌊aa_rounded_rect ((16 : ℕ) : ℝ) ((16 : ℕ) : ℝ) ((32 : ℕ) : ℝ)
        (((32 : ℕ) : ℝ) * 0.18) * 255⌋ := by
  have hpos : 0 < aa_rounded_rect ((16 : ℕ) : ℝ) ((16 : ℕ) : ℝ) ((32 : ℕ) : ℝ)
      (((32 : ℕ) : ℝ) * 0.18) := by
    rw [show aa_rounded_rect ((16 : ℕ) : ℝ) ((16 : ℕ) : ℝ) ((32 : ℕ) : ℝ)
        (((32 : ℕ) : ℝ) * 0.18) = aa_rounded_rect 16 16 32 5.76 by norm_num,
      aa_rounded_rect_32_center]
    norm_num
  exact ⟨hpos, alpha_is_floor 32 16 16 hpos⟩

/-- C4: colour selection of `draw_icon` for pixels inside the mask:
fully inside the coin the colour is brand or white by the glyph test at
the normalized coordinates; on the coin boundary each channel is the
floored blend `brand*(1-ca) + 255*ca`; outside the coin it is the brand
colour. -/
theorem pixel_colour_rule (s x y : ℕ)
    (hra : 0 < aa_rounded_rect (x : ℝ) (y : ℝ) (s : ℝ) ((s : ℝ) * 0.18)) :
    (aa_circle (x : ℝ) (y : ℝ) ((s : ℝ) / 2) ((s : ℝ) / 2) ((s : ℝ) * 0.35) ≥ 1.0 →
      ((iconPixel s x y).1, (iconPixel s x y).2.1, (iconPixel s x y).2.2.1) =
        if is_in_b (0.5 + ((x : ℝ) - (s : ℝ) / 2) / ((s : ℝ) * 0.35 * 2))
            (0.5 + ((y : ℝ) - (s : ℝ) / 2) / ((s : ℝ) * 0.35 * 2)) = true
        then (BG_R, BG_G, BG_B) else (255, 255, 255)) ∧
    (0 < aa_circle (x : ℝ) (y : ℝ) ((s : ℝ) / 2) ((s : ℝ) / 2) ((s : ℝ) * 0.35) →
      aa_circle (x : ℝ) (y : ℝ) ((s : ℝ) / 2) ((s : ℝ) / 2) ((s : ℝ) * 0.35) < 1.0 →
      ((iconPixel s x y).1, (iconPixel s x y).2.1, (iconPixel s x y).2.2.1) =
        (⌊(BG_R : ℝ) * (1 - aa_circle (x : ℝ) (y : ℝ) ((s : ℝ) / 2) ((s : ℝ) / 2)
            ((s : ℝ) * 0.35)) + 255 * aa_circle (x : ℝ) (y : ℝ) ((s : ℝ) / 2)
            ((s : ℝ) / 2) ((s : ℝ) * 0.35)⌋,
         ⌊(BG_G : ℝ) * (1 - aa_circle (x : ℝ) (y : ℝ) ((s : ℝ) / 2) ((s : ℝ) / 2)
            ((s : ℝ) * 0.35)) + 255 * aa_circle (x : ℝ) (y : ℝ) ((s : ℝ) / 2)
            ((s : ℝ) / 2) ((s : ℝ) * 0.35)⌋,
         ⌊(BG_B : ℝ) * (1 - aa_circle (x : ℝ) (y : ℝ) ((s : ℝ) / 2) ((s : ℝ) / 2)
            ((s : ℝ) * 0.35)) + 255 * aa_circle (x : ℝ) (y : ℝ) ((s : ℝ) / 2)
            ((s : ℝ) / 2) ((s : ℝ) * 0.35)⌋)) ∧
    (aa_circle (x : ℝ) (y : ℝ) ((s : ℝ) / 2) ((s : ℝ) / 2) ((s : ℝ) * 0.35) ≤ 0 →
      ((iconPixel s x y).1, (iconPixel s x y).2.1, (iconPixel s x y).2.2.1) =
        (BG_R, BG_G, BG_B)) := by
  set ca := aa_circle (x : ℝ) (y : ℝ) ((s : ℝ) / 2) ((s : ℝ) / 2) ((s : ℝ) * 0.35)
    with hcadef
  have hbgr : ((BG_R : ℤ) : ℝ) = 16 := by norm_num [BG_R]
  have hbgg : ((BG_G : ℤ) : ℝ) = 185 := by norm_num [BG_G]
  have hbgb : ((BG_B : ℤ) : ℝ) = 129 := by norm_num [BG_B]
  refine ⟨?_, ?_, ?_⟩
  · intro h1
    simp only [iconPixel]
    rw [if_neg (not_le.mpr hra), if_pos h1]
    split_ifs with hb <;> rfl
  · intro h2 h3
    have h3' : ca < 1 := lt_of_lt_of_le h3 (le_of_eq (by norm_num))
    simp only [iconPixel]
    rw [if_neg (not_le.mpr hra), if_neg (not_le.mpr h3), if_pos h2]
    show (pyInt ((BG_R : ℝ) * (1 - ca) + 255 * ca),
        pyInt ((BG_G : ℝ) * (1 - ca) + 255 * ca),
        pyInt ((BG_B : ℝ) * (1 - ca) + 255 * ca)) = _
    unfold pyInt
    rw [if_pos (by rw [hbgr]; nlinarith), if_pos (by rw [hbgg]; nlinarith),
      if_pos (by rw [hbgb]; nlinarith)]
  · intro h4
    simp only [iconPixel]
    rw [if_neg (not_le.mpr hra), if_neg (by intro hcon; norm_num at hcon; linarith),
      if_neg (not_lt.mpr h4)]

/-- Coverage of the degenerate 0-size icon is full at (0,0). -/
theorem aa_rounded_rect_zero_size : aa_rounded_rect 0 0 0 0 = 1 := by
  apply aa_rounded_rect_off
  intro p hp
  simp only [cornersList, List.mem_cons, List.not_mem_nil, or_false] at hp
  rcases hp with rfl | rfl | rfl | rfl <;>
    · rintro ⟨⟨h1, h2⟩ | ⟨h1, h2⟩, -⟩ <;> norm_num at h1 h2

/-- Witness for C4 at the pixel (0,0) of the degenerate 0-size canvas. -/
theorem pixel_colour_rule_witness :
    0 < aa_rounded_rect ((0 : ℕ) : ℝ) ((0 : ℕ) : ℝ) ((0 : ℕ) : ℝ)
      (((0 : ℕ) : ℝ) * 0.18) ∧
    ((aa_circle ((0 : ℕ) : ℝ) ((0 : ℕ) : ℝ) (((0 : ℕ) : ℝ) / 2) (((0 : ℕ) : ℝ) / 2)
        (((0 : ℕ) : ℝ) * 0.35) ≥ 1.0 →
      ((iconPixel 0 0 0).1, (iconPixel 0 0 0).2.1, (iconPixel 0 0 0).2.2.1) =
        if is_in_b (0.5 + (((0 : ℕ) : ℝ) - ((0 : ℕ) : ℝ) / 2) / (((0 : ℕ) : ℝ) * 0.35 * 2))
            (0.5 + (((0 : ℕ) : ℝ) - ((0 : ℕ) : ℝ) / 2) / (((0 : ℕ) : ℝ) * 0.35 * 2)) = true
        then (BG_R, BG_G, BG_B) else (255, 255, 255)) ∧
    (0 < aa_circle ((0 : ℕ) : ℝ) ((0 : ℕ) : ℝ) (((0 : ℕ) : ℝ) / 2) (((0 : ℕ) : ℝ) / 2)
        (((0 : ℕ) : ℝ) * 0.35) →
      aa_circle ((0 : ℕ) : ℝ) ((0 : ℕ) : ℝ) (((0 : ℕ) : ℝ) / 2) (((0 : ℕ) : ℝ) / 2)
        (((0 : ℕ) : ℝ) * 0.35) < 1.0 →
      ((iconPixel 0 0 0).1, (iconPixel 0 0 0).2.1, (iconPixel 0 0 0).2.2.1) =
        (⌊(BG_R : ℝ) * (1 - aa_circle ((0 : ℕ) : ℝ) ((0 : ℕ) : ℝ) (((0 : ℕ) : ℝ) / 2)
            (((0 : ℕ) : ℝ) / 2) (((0 : ℕ) : ℝ) * 0.35)) + 255 * aa_circle ((0 : ℕ) : ℝ)
            ((0 : ℕ) : ℝ) (((0 : ℕ) : ℝ) / 2) (((0 : ℕ) : ℝ) / 2) (((0 : ℕ) : ℝ) * 0.35)⌋,
         ⌊(BG_G : ℝ) * (1 - aa_circle ((0 : ℕ) : ℝ) ((0 : ℕ) : ℝ) (((0 : ℕ) : ℝ) / 2)
            (((0 : ℕ) : ℝ) / 2) (((0 : ℕ) : ℝ) * 0.35)) + 255 * aa_circle ((0 : ℕ) : ℝ)
            ((0 : ℕ) : ℝ) (((0 : ℕ) : ℝ) / 2) (((0 : ℕ) : ℝ) / 2) (((0 : ℕ) : ℝ) * 0.35)⌋,
         ⌊(BG_B : ℝ) * (1 - aa_circle ((0 : ℕ) : ℝ) ((0 : ℕ) : ℝ) (((0 : ℕ) : ℝ) / 2)
            (((0 : ℕ) : ℝ) / 2) (((0 : ℕ) : ℝ) * 0.35)) + 255 * aa_circle ((0 : ℕ) : ℝ)
            ((0 : ℕ) : ℝ) (((0 : ℕ) : ℝ) / 2) (((0 : ℕ) : ℝ) / 2) (((0 : ℕ) : ℝ) * 0.35)⌋)) ∧
    (aa_circle ((0 : ℕ) : ℝ) ((0 : ℕ) : ℝ) (((0 : ℕ) : ℝ) / 2) (((0 : ℕ) : ℝ) / 2)
        (((0 : ℕ) : ℝ) * 0.35) ≤ 0 →
      ((iconPixel 0 0 0).1, (iconPixel 0 0 0).2.1, (iconPixel 0 0 0).2.2.1) =
        (BG_R, BG_G, BG_B))) := by
  have hpos : 0 < aa_rounded_rect ((0 : ℕ) : ℝ) ((0 : ℕ) : ℝ) ((0 : ℕ) : ℝ)
      (((0 : ℕ) : ℝ) * 0.18) := by
    rw [show aa_rounded_rect ((0 : ℕ) : ℝ) ((0 : ℕ) : ℝ) ((0 : ℕ) : ℝ)
        (((0 : ℕ) : ℝ) * 0.18) = aa_rounded_rect 0 0 0 0 by norm_num,
      aa_rounded_rect_zero_size]
    norm_num
  exact ⟨hpos, pixel_colour_rule 0 0 0 hpos⟩

/-- `int()` of a value in [0, 255] is an integer in [0, 255]. -/
theorem pyInt_range {v : ℝ} (h0 : 0 ≤ v) (h1 : v ≤ 255) :
    0 ≤ pyInt v ∧ pyInt v < 256 := by
  unfold pyInt
  rw [if_pos h0]
  refine ⟨Int.floor_nonneg.mpr h0, ?_⟩
  have hle : ⌊v⌋ ≤ ⌊(255 : ℝ)⌋ := Int.floor_le_floor h1
  have h255 : ⌊(255 : ℝ)⌋ = 255 := by norm_num
  omega

/-- Every pixel produced by the per-pixel loop body has all four channels
in [0, 255]. -/
theorem iconPixel_valid (s x y : ℕ) : validPixel (iconPixel s x y) := by
  have hra0 : (0 : ℝ) ≤ aa_rounded_rect (x : ℝ) (y : ℝ) (s : ℝ) ((s : ℝ) * 0.18) :=
    aa_rounded_rect_nonneg _ _ _ _
  have hra1 : aa_rounded_rect (x : ℝ) (y : ℝ) (s : ℝ) ((s : ℝ) * 0.18) ≤ 1 :=
    aa_rounded_rect_le_one _ _ _ _
  have hca0 : (0 : ℝ) ≤ aa_circle (x : ℝ) (y : ℝ) ((s : ℝ) / 2) ((s : ℝ) / 2)
      ((s : ℝ) * 0.35) := by
    rw [aa_circle_falloff]
    exact aaFalloff_nonneg _ _
  have hca1 : aa_circle (x : ℝ) (y : ℝ) ((s : ℝ) / 2) ((s : ℝ) / 2)
      ((s : ℝ) * 0.35) ≤ 1 := by
    rw [aa_circle_falloff]
    exact aaFalloff_le_one _ _
  have halpha := pyInt_range
    (v := aa_rounded_rect (x : ℝ) (y : ℝ) (s : ℝ) ((s : ℝ) * 0.18) * 255)
    (mul_nonneg hra0 (by norm_num)) (by nlinarith)
  have hbgr : ((BG_R : ℤ) : ℝ) = 16 := by norm_num [BG_R]
  have hbgg : ((BG_G : ℤ) : ℝ) = 185 := by norm_num [BG_G]
  have hbgb : ((BG_B : ℤ) : ℝ) = 129 := by norm_num [BG_B]
  simp only [iconPixel]
  split_ifs with h0 h1 hb h2
  · exact ⟨by norm_num, by norm_num, by norm_num, by norm_num⟩
  · exact ⟨by norm_num [BG_R], by norm_num [BG_G], by norm_num [BG_B], halpha⟩
  · exact ⟨by norm_num, by norm_num, by norm_num, halpha⟩
  · exact ⟨pyInt_range (by rw [hbgr]; nlinarith) (by rw [hbgr]; nlinarith),
      pyInt_range (by rw [hbgg]; nlinarith) (by rw [hbgg]; nlinarith),
      pyInt_range (by rw [hbgb]; nlinarith) (by rw [hbgb]; nlinarith), halpha⟩
  · exact ⟨by norm_num [BG_R], by norm_num [BG_G], by norm_num [BG_B], halpha⟩

/-- C10: for every size, all four channels of every pixel tuple produced
by `draw_icon` are integers in [0, 255], so the per-pixel byte packing in
`make_png` never fails on such a canvas. -/
theorem draw_icon_valid_pixels (s : ℕ) (compress : List ℕ → List ℕ) (hs : 0 < s) :
    (∀ p ∈ draw_icon s, validPixel p) ∧
    (make_png s s (draw_icon s) compress).isSome := by
  constructor
  · intro p hp
    simp only [draw_icon, List.mem_flatMap, List.mem_map, List.mem_range] at hp
    obtain ⟨j, hj, i, hi, rfl⟩ := hp
    exact iconPixel_valid s i j
  · apply make_png_isSome
    intro j hj i hi
    exact ⟨iconPixel s i j, draw_icon_getElem s i j hi hj, iconPixel_valid s i j⟩

/-- Witness for C10 at size 2. -/
theorem draw_icon_valid_pixels_witness :
    0 < 2 ∧ ((∀ p ∈ draw_icon 2, validPixel p) ∧
      (make_png 2 2 (draw_icon 2) id).isSome) :=
  ⟨by norm_num, draw_icon_valid_pixels 2 id (by norm_num)⟩

/-- C5: on any positive width and height and any pixel sequence of length
`width*height` with byte-range channels, the encoder output is the 8-byte
PNG signature followed by exactly the three chunks IHDR, IDAT, IEND in
that order, each framed as big-endian length, ASCII type, data, and
big-endian CRC-32 over type+data. -/
theorem make_png_structure (w h : ℕ) (pixels : List Pixel)
    (compress : List ℕ → List ℕ) (hw : 0 < w) (hh : 0 < h)
    (hlen : pixels.length = w * h) (hvalid : ∀ p ∈ pixels, validPixel p) :
    ∃ raw, rawData w h pixels = some raw ∧
      make_png w h pixels compress =
        some (pngSig ++
          (be32 (ihdrData w h).length ++ (ihdrType ++ ihdrData w h) ++
            be32 (crc32 (ihdrType ++ ihdrData w h))) ++
          (be32 (compress raw).length ++ (idatType ++ compress raw) ++
            be32 (crc32 (idatType ++ compress raw))) ++
          (be32 (List.length ([] : List ℕ)) ++ (iendType ++ []) ++
            be32 (crc32 (iendType ++ [])))) := by
  have hpx : ∀ y < h, ∀ x < w, ∃ p, pixels[y * w + x]? = some p ∧ validPixel p := by
    intro y hy x hx
    have hidx : y * w + x < pixels.length := by
      rw [hlen]
      calc y * w + x < (y + 1) * w := by
            rw [Nat.succ_mul]
            exact Nat.add_lt_add_left hx _
        _ ≤ h * w := Nat.mul_le_mul_right w (Nat.succ_le_of_lt hy)
        _ = w * h := Nat.mul_comm h w
    exact ⟨pixels[y * w + x], List.getElem?_eq_getElem hidx,
      hvalid _ (List.getElem_mem hidx)⟩
  obtain ⟨raw, hraw⟩ := Option.isSome_iff_exists.1 (rawData_isSome w h pixels hpx)
  refine ⟨raw, hraw, ?_⟩
  unfold make_png
  rw [hraw]
  simp [chunk]

/-- Witness for C5: a 1×1 transparent canvas with the identity as the
compressor. -/
theorem make_png_structure_witness :
    0 < 1 ∧ 0 < 1 ∧ List.length [((0 : ℤ), (0 : ℤ), (0 : ℤ), (0 : ℤ))] = 1 * 1 ∧
    (∀ p ∈ [((0 : ℤ), (0 : ℤ), (0 : ℤ), (0 : ℤ))], validPixel p) ∧
    (∃ raw, rawData 1 1 [((0 : ℤ), (0 : ℤ), (0 : ℤ), (0 : ℤ))] = some raw ∧
      make_png 1 1 [((0 : ℤ), (0 : ℤ), (0 : ℤ), (0 : ℤ))] id =
        some (pngSig ++
          (be32 (ihdrData 1 1).length ++ (ihdrType ++ ihdrData 1 1) ++
            be32 (crc32 (ihdrType ++ ihdrData 1 1))) ++
          (be32 (id raw).length ++ (idatType ++ id raw) ++
            be32 (crc32 (idatType ++ id raw))) ++
          (be32 (List.length ([] : List ℕ)) ++ (iendType ++ []) ++
            be32 (crc32 (iendType ++ []))))) :=
  ⟨by norm_num, by norm_num, by norm_num,
    by
      intro p hp
      simp only [List.mem_singleton] at hp
      subst hp
      exact ⟨by norm_num, by norm_num, by norm_num, by norm_num⟩,
    make_png_structure 1 1 [((0 : ℤ), (0 : ℤ), (0 : ℤ), (0 : ℤ))] id (by norm_num)
      (by norm_num) (by norm_num)
      (by
        intro p hp
        simp only [List.mem_singleton] at hp
        subst hp
        exact ⟨by norm_num, by norm_num, by norm_num, by norm_num⟩)⟩

end IconGen
